import Mathlib

/-!
A verification development for the two Python scripts of this repository:
`src/skills/code-analysis/analyze.py` and `src/skills/git-workflow/helpers.py`.

Strings are modelled as `List Char`; each Python string operation used by the
scripts is embedded as a structurally recursive Lean function.  Python's
`str.lower` is modelled by the ASCII case mapping `Char.toLower` (every string
constant the scripts compare against is ASCII).
-/

/-! ## Embedded Python string primitives -/

/-- Model of Python `str.split()` (split on whitespace runs, dropping empty
pieces): auxiliary worker carrying the word accumulated so far (reversed). -/
def wordsAux : List Char → List Char → List (List Char)
  | [], acc => if acc = [] then [] else [acc.reverse]
  | c :: cs, acc =>
      if c.isWhitespace then
        if acc = [] then wordsAux cs [] else acc.reverse :: wordsAux cs []
      else wordsAux cs (c :: acc)

/-- Model of Python `str.split()` with no separator argument. -/
def pyWords (s : List Char) : List (List Char) :=
  wordsAux s []

/-- Worker for `splitNl`, carrying the current piece (reversed). -/
def splitNlAux : List Char → List Char → List (List Char)
  | [], acc => [acc.reverse]
  | c :: cs, acc =>
      if c = '\n' then acc.reverse :: splitNlAux cs [] else splitNlAux cs (c :: acc)

/-- Model of Python `str.split('\n')`: pieces between newline characters,
keeping empty pieces (so the result is always nonempty). -/
def splitNl (s : List Char) : List (List Char) :=
  splitNlAux s []

/-- Model of Python `str.strip()` on the left: drop leading whitespace. -/
def stripLeft (s : List Char) : List Char :=
  s.dropWhile Char.isWhitespace

/-- Model of Python `str.strip()` on the right: drop trailing whitespace. -/
def stripRight (s : List Char) : List Char :=
  (s.reverse.dropWhile Char.isWhitespace).reverse

/-- Model of Python `str.strip()`: drop leading and trailing whitespace. -/
def pyStrip (s : List Char) : List Char :=
  stripRight (stripLeft s)

/-- Model of Python `str.lower()` (ASCII case mapping). -/
def pyLower (s : List Char) : List Char :=
  s.map Char.toLower

/-- Model of Python `needle in hay` (substring containment test). -/
def containsSub (needle hay : List Char) : Bool :=
  hay.tails.any (fun t => needle.isPrefixOf t)

/-- Model of `str.replace('b/', '')` in `analyze_diff` (helpers.py line 141):
Python `replace` removes every non-overlapping occurrence of `b/`, scanning
left to right. -/
def removeBSlash : List Char → List Char
  | [] => []
  | 'b' :: '/' :: cs => removeBSlash cs
  | c :: cs => c :: removeBSlash cs

/-! ## Model of `src/skills/code-analysis/analyze.py` -/

/-- Model of a `ReadabilityIssue` (analyze.py lines 69-100).  Only the fields
the analysed claims depend on are carried: the line number, the issue type,
and — for the `insufficient_comments` issue — the comment ratio that the
source interpolates into the description string (`ratio` is `none` for every
other issue). -/
structure Issue where
  line : Nat
  issue_type : List Char
  ratio : Option ℚ
deriving DecidableEq

/-- Model of the `issue_weights` lookup with default 2
(analyze.py lines 436-446). -/
def issueWeight (t : List Char) : Int :=
  if t = ("cryptic_naming").data then 3
  else if t = ("missing_comments").data then 5
  else if t = ("insufficient_comments").data then 10
  else if t = ("unexplained_jargon").data then 4
  else if t = ("missing_documentation").data then 5
  else 2

/-- Model of `_calculate_readability_score` (analyze.py lines 417-450):
start at 100, return 0 for an empty file, subtract each issue's weight,
floor at 0. -/
def calculate_readability_score (issues : List Issue) (total_lines : Nat) : Int :=
  if total_lines = 0 then 0
  else max 0 (issues.foldl (fun score i => score - issueWeight i.issue_type) 100)

/-- Model of the comment test of `_check_comments` (analyze.py lines 270-273):
a stripped nonempty line is a comment when it starts with `#`, `//`, `/*`
or `*`. -/
def isCommentStart (stripped : List Char) : Bool :=
  ("#").data.isPrefixOf stripped || ("//").data.isPrefixOf stripped ||
  ("/*").data.isPrefixOf stripped || ("*").data.isPrefixOf stripped

/-- A line that `_check_comments` skips: blank after stripping. -/
def lineIsBlank (line : List Char) : Bool :=
  pyStrip line = []

/-- A line that `_check_comments` counts as a comment line. -/
def lineIsComment (line : List Char) : Bool :=
  !lineIsBlank line && isCommentStart (pyStrip line)

/-- A line that `_check_comments` counts as a code line
(non-blank, non-comment). -/
def lineIsCode (line : List Char) : Bool :=
  !lineIsBlank line && !isCommentStart (pyStrip line)

/-- Number of code lines counted by `_check_comments`. -/
def codeLineCount (lines : List (List Char)) : Nat :=
  lines.countP lineIsCode

/-- Number of comment lines counted by `_check_comments`. -/
def commentLineCount (lines : List (List Char)) : Nat :=
  lines.countP lineIsComment

/-- The comment ratio `comment_line_count / code_line_count`
(analyze.py line 297), as an exact rational. -/
def commentRatio (lines : List (List Char)) : ℚ :=
  (commentLineCount lines : ℚ) / (codeLineCount lines : ℚ)

/-- Loop state of `_check_comments` (analyze.py lines 255-258):
code line count, comment line count, current run of uncommented code lines,
and the issues appended so far. -/
structure CCState where
  code : Nat
  comment : Nat
  run : Nat
  issues : List Issue

/-- One iteration of the `_check_comments` loop (analyze.py lines 261-292),
for the line numbered `p.1` with text `p.2`. -/
def commentStep (strictness : List Char) (st : CCState) (p : Nat × List Char) : CCState :=
  let stripped := pyStrip p.2
  if stripped = [] then st
  else if isCommentStart stripped then
    { st with comment := st.comment + 1, run := 0 }
  else
    if 10 < st.run + 1 ∧ (strictness = ("standard").data ∨ strictness = ("strict").data) then
      { st with
          code := st.code + 1,
          issues := st.issues ++ [⟨p.1, ("missing_comments").data, none⟩],
          run := 0 }
    else { st with code := st.code + 1, run := st.run + 1 }

/-- Final step of `_check_comments` (analyze.py lines 294-304): append the
file-level `insufficient_comments` issue to the loop issues when there is at
least one code line and the comment ratio is below 0.2.  The ratio comparison
is modelled with exact rationals. -/
def ccResult (st : CCState) : List Issue :=
  st.issues ++
    (if 0 < st.code ∧ (st.comment : ℚ) / (st.code : ℚ) < 1/5 then
      [⟨0, ("insufficient_comments").data, some ((st.comment : ℚ) / (st.code : ℚ))⟩]
    else [])

/-- Model of `_check_comments` (analyze.py lines 249-304), assembled from the
loop and the final ratio check. -/
def check_comments (strictness : List Char) (lines : List (List Char)) : List Issue :=
  ccResult ((lines.enum.map (fun q => (q.1 + 1, q.2))).foldl (commentStep strictness)
    ⟨0, 0, 0, []⟩)

/-- The `insufficient_comments` issues among a list of issues. -/
def insufficientOf (issues : List Issue) : List Issue :=
  issues.filter (fun i => i.issue_type = ("insufficient_comments").data)

/-! ## Model of `src/skills/git-workflow/helpers.py` -/

/-- Result of `analyze_diff` (helpers.py lines 118-158).  The early return for
empty input (lines 125-126) builds a dict WITHOUT the `total_changes` key, so
that field is modelled as an `Option`. -/
structure DiffResult where
  files : List (List Char)
  additions : Nat
  deletions : Nat
  total_changes : Option Nat
deriving DecidableEq

/-- Accumulator of the `analyze_diff` loop. -/
structure DiffAcc where
  files : List (List Char)
  adds : Nat
  dels : Nat
deriving DecidableEq

/-- One iteration of the `analyze_diff` loop (helpers.py lines 135-150). -/
def diffStep (acc : DiffAcc) (line : List Char) : DiffAcc :=
  if ("diff --git").data.isPrefixOf line then
    (if 4 ≤ (pyWords line).length then
      { acc with files := acc.files ++ [removeBSlash ((pyWords line).getD 3 [])] }
    else acc)
  else if ("+").data.isPrefixOf line ∧ ¬ ("+++").data.isPrefixOf line then
    { acc with adds := acc.adds + 1 }
  else if ("-").data.isPrefixOf line ∧ ¬ ("---").data.isPrefixOf line then
    { acc with dels := acc.dels + 1 }
  else acc

/-- Model of `analyze_diff` (helpers.py lines 118-158).  The argument is an
`Option` so that Python `None` (falsy, like the empty string) is covered. -/
def analyze_diff (diff_text : Option (List Char)) : DiffResult :=
  match diff_text with
  | none => ⟨[], 0, 0, none⟩
  | some d =>
      if d = [] then ⟨[], 0, 0, none⟩
      else
        let acc := (splitNl d).foldl diffStep ⟨[], 0, 0⟩
        ⟨acc.files, acc.adds, acc.dels, some (acc.adds + acc.dels)⟩

/-- The addition-counting predicate of the spec: the line begins with `+` but
not with `+++`. -/
def isAdditionLine (line : List Char) : Bool :=
  ("+").data.isPrefixOf line && !(("+++").data.isPrefixOf line)

/-- The deletion-counting predicate of the spec: the line begins with `-` but
not with `---`. -/
def isDeletionLine (line : List Char) : Bool :=
  ("-").data.isPrefixOf line && !(("---").data.isPrefixOf line)

/-- The file paths `analyze_diff` extracts, expressed line by line: each
`diff --git` header line with at least four whitespace-separated parts
contributes its fourth part with every occurrence of `b/` removed. -/
def extractFiles (lines : List (List Char)) : List (List Char) :=
  lines.filterMap (fun l =>
    if ("diff --git").data.isPrefixOf l ∧ 4 ≤ (pyWords l).length then
      some (removeBSlash ((pyWords l).getD 3 []))
    else none)

/-- The four categories of `get_status` (helpers.py lines 90-115). -/
inductive FileCat where
  | modified
  | added
  | deleted
  | untracked
deriving DecidableEq

/-- Classification of a two-character porcelain status code `x y`
(helpers.py lines 106-113): first matching rule wins, codes matching no rule
are ignored. -/
def statusCat (x y : Char) : Option FileCat :=
  if x = 'M' ∨ y = 'M' then some .modified
  else if x = 'A' then some .added
  else if x = 'D' ∨ y = 'D' then some .deleted
  else if x = '?' ∧ y = '?' then some .untracked
  else none

/-- Result of `get_status`: the four file lists. -/
structure Status where
  modified : List (List Char)
  added : List (List Char)
  deleted : List (List Char)
  untracked : List (List Char)
deriving DecidableEq

/-- Append a filename to the list chosen by the category. -/
def statusPush (st : Status) (cat : FileCat) (f : List Char) : Status :=
  match cat with
  | .modified => { st with modified := st.modified ++ [f] }
  | .added => { st with added := st.added ++ [f] }
  | .deleted => { st with deleted := st.deleted ++ [f] }
  | .untracked => { st with untracked := st.untracked ++ [f] }

/-- One iteration of the `get_status` loop (helpers.py lines 93-113): empty
lines are skipped; the status code is `line[:2]` and the filename is
`line[3:].strip()`.  A line of length one whose character is not `M` makes
the Python code read `status_code[1]` and raise `IndexError`; that is
modelled by `none`. -/
def statusStep (st : Status) (line : List Char) : Option Status :=
  match line with
  | [] => some st
  | [c] =>
      if c = 'M' then some (statusPush st .modified []) else none
  | x :: y :: rest =>
      match statusCat x y with
      | some cat => some (statusPush st cat (pyStrip (rest.drop 1)))
      | none => some st

/-- Model of `get_status` (helpers.py lines 74-115) applied to the captured
`git status --porcelain` stdout: strip it, split on newlines, and classify
each line. -/
def get_status (stdout : List Char) : Option Status :=
  (splitNl (pyStrip stdout)).foldlM statusStep ⟨[], [], [], []⟩

/-- The usage-hint string returned by `suggest_branch_name` for an empty
context (helpers.py line 296). -/
def usageHint : List Char :=
  ("Usage: Provide context like \x27adding search feature\x27 or \x27fix login bug\x27").data

/-- Keyword sets for branch-type detection (helpers.py lines 304-311). -/
def fixKeywords : List (List Char) :=
  [("fix").data, ("bug").data, ("error").data, ("issue").data, ("broken").data]

/-- Keywords selecting the `refactor` branch type. -/
def refactorKeywords : List (List Char) :=
  [("refactor").data, ("cleanup").data, ("improve").data, ("simplify").data]

/-- Keywords selecting the `test` branch type. -/
def testKeywords : List (List Char) :=
  [("test").data, ("testing").data]

/-- Keywords selecting the `docs` branch type. -/
def docsKeywords : List (List Char) :=
  [("doc").data, ("docs").data, ("documentation").data, ("readme").data]

/-- Branch-type detection of `suggest_branch_name` (helpers.py lines
301-311): substring tests against the normalized context, default
`feature`. -/
def branchTypeOf (normalized : List Char) : List Char :=
  if fixKeywords.any (fun w => containsSub w normalized) then ("fix").data
  else if refactorKeywords.any (fun w => containsSub w normalized) then ("refactor").data
  else if testKeywords.any (fun w => containsSub w normalized) then ("test").data
  else if docsKeywords.any (fun w => containsSub w normalized) then ("docs").data
  else ("feature").data

/-- The filler-word list removed from branch names
(helpers.py lines 315-318). -/
def removeWords : List (List Char) :=
  [("the").data, ("a").data, ("an").data, ("is").data, ("are").data,
   ("was").data, ("were").data, ("be").data, ("been").data, ("being").data,
   ("have").data, ("has").data, ("had").data, ("do").data, ("does").data,
   ("did").data, ("will").data, ("would").data, ("should").data,
   ("could").data, ("may").data, ("might").data, ("must").data, ("can").data,
   ("add").data, ("adding").data, ("fix").data, ("fixing").data,
   ("update").data, ("updating").data]

/-- The character class kept by `re.sub(r'[^a-z0-9-]', '', ...)`
(helpers.py line 329). -/
def isSlugChar (c : Char) : Bool :=
  ('a' ≤ c && c ≤ 'z') || ('0' ≤ c && c ≤ '9') || c = '-'

/-- Model of `suggest_branch_name` (helpers.py lines 288-332). -/
def suggest_branch_name (context : List Char) : List Char :=
  if context = [] then usageHint
  else
    branchTypeOf (pyStrip (pyLower context)) ++ ('/' : Char) ::
      (List.intercalate [('-' : Char)]
        (((pyWords (pyStrip (pyLower context))).filter
          (fun w => !(decide (w ∈ removeWords)) && decide (2 < w.length))).take 5)).filter
        isSlugChar

/-- Modelled from the spec: the `prefix/slug` pattern of a produced branch
name — one of the five branch-type markers, a slash, then only characters
from `[a-z0-9-]`. -/
def branchNamePattern (s : List Char) : Bool :=
  [("feature").data, ("fix").data, ("refactor").data, ("test").data, ("docs").data].any
    (fun p => (p ++ [('/' : Char)]).isPrefixOf s && (s.drop (p.length + 1)).all isSlugChar)

/-- Model of an issue record of `analyze_commit_history`
(helpers.py lines 407-434): the short hash and the issue type. -/
structure GitIssue where
  commit : List Char
  issue_type : List Char
deriving DecidableEq

/-- The vague-message patterns (helpers.py lines 403-404), as matchers on the
lowercased subject.  Subjects come from one line of `git log` output, so they
contain no newline and `re.search` of these anchored patterns is exact
equality (for `^wip$`, `^fix$`, `^update$`, `^test$`) or a start-of-string
match (for `^change`, `^temp`, `^asdf`, `^\.`). -/
def vaguePatterns : List (List Char → Bool) :=
  [fun s => decide (s = ("wip").data),
   fun s => decide (s = ("fix").data),
   fun s => decide (s = ("update").data),
   fun s => ("change").data.isPrefixOf s,
   fun s => decide (s = ("test").data),
   fun s => ("temp").data.isPrefixOf s,
   fun s => ("asdf").data.isPrefixOf s,
   fun s => [('.' : Char)].isPrefixOf s]

/-- The `for pattern in vague_patterns` loop with its `break`
(helpers.py lines 405-414): the first matching pattern appends one
`vague_message` issue and stops the loop. -/
def vagueLoop (pats : List (List Char → Bool)) (hash msgLower : List Char) : List GitIssue :=
  match pats with
  | [] => []
  | p :: ps =>
      if p msgLower then [⟨hash, ("vague_message").data⟩]
      else vagueLoop ps hash msgLower

/-- The per-commit issue checks of `analyze_commit_history`
(helpers.py lines 399-434): the vague-message loop, then the large-commit
check, then the short-message check. -/
def commitIssues (hash message : List Char) (files_changed : Nat) : List GitIssue :=
  vagueLoop vaguePatterns hash (pyLower message) ++
    (if 20 < files_changed then [⟨hash, ("large_commit").data⟩] else []) ++
    (if message.length < 10 then [⟨hash, ("short_message").data⟩] else [])

/-! ## General lemmas about the embedded primitives -/

theorem wordsAux_nil (acc : List Char) :
    wordsAux [] acc = if acc = [] then [] else [acc.reverse] := rfl

theorem wordsAux_cons (c : Char) (cs acc : List Char) :
    wordsAux (c :: cs) acc =
      if c.isWhitespace then
        if acc = [] then wordsAux cs [] else acc.reverse :: wordsAux cs []
      else wordsAux cs (c :: acc) := rfl

theorem ofNat_lower_not_ws : ∀ n : Nat, n < 123 → 97 ≤ n → (Char.ofNat n).isWhitespace = false := by
  decide

theorem toLower_isWhitespace (c : Char) : (Char.toLower c).isWhitespace = c.isWhitespace := by
  show (if c.toNat ≥ 65 ∧ c.toNat ≤ 90 then Char.ofNat (c.toNat + 32) else c).isWhitespace
      = c.isWhitespace
  split
  · next h =>
    have h1 : (Char.ofNat (c.toNat + 32)).isWhitespace = false :=
      ofNat_lower_not_ws _ (by omega) (by omega)
    rw [h1]
    have hne : ∀ d : Char, d.toNat ≠ c.toNat → ¬ (c = d) := by
      intro d hd hc
      exact hd (by rw [hc])
    have h2 : c.isWhitespace = false := by
      simp only [Char.isWhitespace]
      simp only [decide_eq_false (hne ' ' (by have hd : (' ' : Char).toNat = 32 := rfl; omega)),
        decide_eq_false (hne '\t' (by have hd : (('\t' : Char)).toNat = 9 := rfl; omega)),
        decide_eq_false (hne '\x0d' (by have hd : (('\x0d' : Char)).toNat = 13 := rfl; omega)),
        decide_eq_false (hne '\n' (by have hd : (('\n' : Char)).toNat = 10 := rfl; omega))]
      rfl
    rw [h2]
  · rfl

theorem wordsAux_map_toLower (s : List Char) :
    ∀ acc : List Char,
      wordsAux (s.map Char.toLower) (acc.map Char.toLower)
        = (wordsAux s acc).map (List.map Char.toLower) := by
  induction s with
  | nil =>
    intro acc
    by_cases h : acc = []
    · subst h; rfl
    · have h2 : acc.map Char.toLower ≠ [] := by simpa using h
      rw [List.map_nil, wordsAux_nil, wordsAux_nil, if_neg h, if_neg h2]
      simp [List.map_reverse]
  | cons c cs ih =>
    intro acc
    rw [List.map_cons, wordsAux_cons, wordsAux_cons]
    by_cases hw : c.isWhitespace
    · have hw2 : (Char.toLower c).isWhitespace = true := by
        rw [toLower_isWhitespace]; exact hw
      rw [if_pos hw, if_pos hw2]
      by_cases h : acc = []
      · subst h
        rw [List.map_nil, if_pos rfl, if_pos rfl]
        simpa using ih []
      · have h2 : acc.map Char.toLower ≠ [] := by simpa using h
        rw [if_neg h, if_neg h2, List.map_cons]
        have hcs : wordsAux (cs.map Char.toLower) []
            = (wordsAux cs []).map (List.map Char.toLower) := by
          simpa using ih []
        rw [hcs]
        simp [List.map_reverse]
    · have hw2 : ¬ ((Char.toLower c).isWhitespace = true) := by
        rw [toLower_isWhitespace]; exact hw
      rw [if_neg hw, if_neg hw2]
      simpa using ih (c :: acc)

theorem words_lower (s : List Char) : pyWords (pyLower s) = (pyWords s).map pyLower := by
  have h := wordsAux_map_toLower s []
  rw [List.map_nil] at h
  simpa [pyWords, pyLower] using h

theorem wordsAux_all_ws (t : List Char) (ht : ∀ c ∈ t, c.isWhitespace = true) :
    ∀ acc, wordsAux t acc = wordsAux [] acc := by
  induction t with
  | nil => intro acc; rfl
  | cons c cs ih =>
    intro acc
    have hc : c.isWhitespace = true := ht c (List.mem_cons_self c cs)
    have ihs : ∀ acc2, wordsAux cs acc2 = wordsAux [] acc2 :=
      ih (fun d hd => ht d (List.mem_cons_of_mem c hd))
    have hnil : wordsAux cs [] = [] := by rw [ihs []]; rfl
    rw [wordsAux_cons, if_pos hc, wordsAux_nil, hnil]

theorem wordsAux_append_ws (t : List Char) (ht : ∀ c ∈ t, c.isWhitespace = true)
    (s : List Char) : ∀ acc, wordsAux (s ++ t) acc = wordsAux s acc := by
  induction s with
  | nil =>
    intro acc
    rw [List.nil_append]
    exact wordsAux_all_ws t ht acc
  | cons c cs ih =>
    intro acc
    rw [List.cons_append, wordsAux_cons, wordsAux_cons]
    by_cases hw : c.isWhitespace
    · rw [if_pos hw, if_pos hw, ih]
    · rw [if_neg hw, if_neg hw, ih]

theorem words_stripLeft (s : List Char) : pyWords (stripLeft s) = pyWords s := by
  induction s with
  | nil => rfl
  | cons c cs ih =>
    by_cases hw : c.isWhitespace
    · have h1 : stripLeft (c :: cs) = stripLeft cs := by
        simp [stripLeft, List.dropWhile_cons, hw]
      rw [h1, ih]
      show _ = wordsAux (c :: cs) []
      rw [wordsAux_cons, if_pos hw, if_pos rfl]
      rfl
    · have h1 : stripLeft (c :: cs) = c :: cs := by
        simp [stripLeft, List.dropWhile_cons, hw]
      rw [h1]

theorem words_stripRight (s : List Char) : pyWords (stripRight s) = pyWords s := by
  have hdec : stripRight s ++ (s.reverse.takeWhile Char.isWhitespace).reverse = s := by
    show (s.reverse.dropWhile Char.isWhitespace).reverse ++ _ = s
    rw [← List.reverse_append, List.takeWhile_append_dropWhile, List.reverse_reverse]
  have hws : ∀ c ∈ (s.reverse.takeWhile Char.isWhitespace).reverse, c.isWhitespace = true := by
    intro c hc
    exact List.mem_takeWhile_imp (List.mem_reverse.mp hc)
  calc pyWords (stripRight s)
      = wordsAux (stripRight s ++ (s.reverse.takeWhile Char.isWhitespace).reverse) [] := by
        rw [wordsAux_append_ws _ hws]; rfl
    _ = pyWords s := by rw [hdec]; rfl

theorem words_strip (s : List Char) : pyWords (pyStrip s) = pyWords s := by
  unfold pyStrip
  rw [words_stripRight, words_stripLeft]

theorem cons_isPrefixOf_cons (a b : Char) (as bs : List Char) :
    (a :: as).isPrefixOf (b :: bs) = (a == b && as.isPrefixOf bs) := rfl

theorem firstChar_of_isPrefixOf {c : Char} {p line : List Char}
    (h : (c :: p).isPrefixOf line = true) : ∃ rest, line = c :: rest := by
  cases line with
  | nil => simp [List.isPrefixOf] at h
  | cons b bs =>
    rw [cons_isPrefixOf_cons, Bool.and_eq_true, beq_iff_eq] at h
    exact ⟨bs, by rw [h.1]⟩

theorem isAdditionLine_cons_ne {c : Char} (hc : c ≠ '+') (rest : List Char) :
    isAdditionLine (c :: rest) = false := by
  have h1 : ("+").data.isPrefixOf (c :: rest) = ('+' == c && List.isPrefixOf [] rest) := rfl
  unfold isAdditionLine
  rw [h1, beq_eq_false_iff_ne.mpr (fun he => hc he.symm), Bool.false_and, Bool.false_and]

theorem isDeletionLine_cons_ne {c : Char} (hc : c ≠ '-') (rest : List Char) :
    isDeletionLine (c :: rest) = false := by
  have h1 : ("-").data.isPrefixOf (c :: rest) = ('-' == c && List.isPrefixOf [] rest) := rfl
  unfold isDeletionLine
  rw [h1, beq_eq_false_iff_ne.mpr (fun he => hc he.symm), Bool.false_and, Bool.false_and]

theorem extractFiles_singleton (line : List Char) :
    extractFiles [line] =
      if ("diff --git").data.isPrefixOf line ∧ 4 ≤ (pyWords line).length then
        [removeBSlash ((pyWords line).getD 3 [])]
      else [] := by
  unfold extractFiles
  rw [List.filterMap_cons]
  split <;> simp_all

theorem diffStep_eq (acc : DiffAcc) (line : List Char) :
    diffStep acc line =
      ⟨acc.files ++ extractFiles [line],
        acc.adds + (if isAdditionLine line then 1 else 0),
        acc.dels + (if isDeletionLine line then 1 else 0)⟩ := by
  unfold diffStep
  rw [extractFiles_singleton]
  by_cases hA : ("diff --git").data.isPrefixOf line = true
  · rcases firstChar_of_isPrefixOf hA with ⟨rest, hrest⟩
    have hadd : isAdditionLine line = false := by
      rw [hrest]; exact isAdditionLine_cons_ne (by decide) rest
    have hdel : isDeletionLine line = false := by
      rw [hrest]; exact isDeletionLine_cons_ne (by decide) rest
    rw [if_pos hA, hadd, hdel]
    by_cases hB : 4 ≤ (pyWords line).length
    · rw [if_pos hB, if_pos ⟨hA, hB⟩]
      simp
    · rw [if_neg hB, if_neg (fun hab => hB hab.2)]
      simp
  · have hA2 : ¬ (("diff --git").data.isPrefixOf line = true ∧ 4 ≤ (pyWords line).length) :=
      fun hab => hA hab.1
    rw [if_neg hA, if_neg hA2, List.append_nil]
    by_cases hC : ("+").data.isPrefixOf line = true ∧ ¬ ("+++").data.isPrefixOf line = true
    · have hadd : isAdditionLine line = true := by
        unfold isAdditionLine
        rw [hC.1, eq_false_of_ne_true hC.2]
        rfl
      have hdel : isDeletionLine line = false := by
        rcases firstChar_of_isPrefixOf hC.1 with ⟨rest, hrest⟩
        rw [hrest]; exact isDeletionLine_cons_ne (by decide) rest
      rw [if_pos hC, hadd, hdel]
      simp
    · have hadd : isAdditionLine line = false := by
        unfold isAdditionLine
        by_cases h1 : ("+").data.isPrefixOf line = true
        · have h2 : ("+++").data.isPrefixOf line = true := by
            by_contra h2
            exact hC ⟨h1, h2⟩
          rw [h1, h2]
          rfl
        · rw [eq_false_of_ne_true h1, Bool.false_and]
      rw [if_neg hC, hadd]
      by_cases hD : ("-").data.isPrefixOf line = true ∧ ¬ ("---").data.isPrefixOf line = true
      · have hdel : isDeletionLine line = true := by
          unfold isDeletionLine
          rw [hD.1, eq_false_of_ne_true hD.2]
          rfl
        rw [if_pos hD, hdel]
        simp
      · have hdel : isDeletionLine line = false := by
          unfold isDeletionLine
          by_cases h1 : ("-").data.isPrefixOf line = true
          · have h2 : ("---").data.isPrefixOf line = true := by
              by_contra h2
              exact hD ⟨h1, h2⟩
            rw [h1, h2]
            rfl
          · rw [eq_false_of_ne_true h1, Bool.false_and]
        rw [if_neg hD, hdel]
        simp

theorem foldDiff_spec : ∀ (ls : List (List Char)) (acc : DiffAcc),
    ls.foldl diffStep acc =
      ⟨acc.files ++ extractFiles ls,
        acc.adds + ls.countP isAdditionLine,
        acc.dels + ls.countP isDeletionLine⟩ := by
  intro ls
  induction ls with
  | nil =>
    intro acc
    simp [extractFiles]
  | cons l ls ih =>
    intro acc
    rw [List.foldl_cons, ih, diffStep_eq]
    have hext : extractFiles (l :: ls) = extractFiles [l] ++ extractFiles ls := by
      unfold extractFiles
      rw [List.filterMap_cons, List.filterMap_cons]
      split <;> simp
    rw [hext]
    simp [List.countP_cons, List.append_assoc]
    constructor <;> split <;> omega

theorem analyze_diff_some (d : List Char) (hd : ¬ (d = [])) :
    analyze_diff (some d) =
      ⟨extractFiles (splitNl d),
        (splitNl d).countP isAdditionLine,
        (splitNl d).countP isDeletionLine,
        some ((splitNl d).countP isAdditionLine + (splitNl d).countP isDeletionLine)⟩ := by
  have h0 : analyze_diff (some d)
      = (if d = [] then (⟨[], 0, 0, none⟩ : DiffResult)
        else
          ⟨((splitNl d).foldl diffStep ⟨[], 0, 0⟩).files,
            ((splitNl d).foldl diffStep ⟨[], 0, 0⟩).adds,
            ((splitNl d).foldl diffStep ⟨[], 0, 0⟩).dels,
            some (((splitNl d).foldl diffStep ⟨[], 0, 0⟩).adds
              + ((splitNl d).foldl diffStep ⟨[], 0, 0⟩).dels)⟩) := rfl
  rw [h0, if_neg hd, foldDiff_spec]
  simp

theorem commentStep_code (strict : List Char) (st : CCState) (p : Nat × List Char) :
    (commentStep strict st p).code = st.code + (if lineIsCode p.2 then 1 else 0) := by
  unfold commentStep
  by_cases hb : pyStrip p.2 = []
  · have hl : lineIsCode p.2 = false := by
      simp [lineIsCode, lineIsBlank, hb]
    rw [if_pos hb, hl]
    simp
  · by_cases hc : isCommentStart (pyStrip p.2) = true
    · have hl : lineIsCode p.2 = false := by
        simp [lineIsCode, lineIsBlank, hb, hc]
      rw [if_neg hb, if_pos hc, hl]
      simp
    · have hl : lineIsCode p.2 = true := by
        simp [lineIsCode, lineIsBlank, hb, hc]
      rw [if_neg hb, if_neg hc, hl, if_pos rfl]
      split <;> rfl

theorem commentStep_comment (strict : List Char) (st : CCState) (p : Nat × List Char) :
    (commentStep strict st p).comment = st.comment + (if lineIsComment p.2 then 1 else 0) := by
  unfold commentStep
  by_cases hb : pyStrip p.2 = []
  · have hl : lineIsComment p.2 = false := by
      simp [lineIsComment, lineIsBlank, hb]
    rw [if_pos hb, hl]
    simp
  · by_cases hc : isCommentStart (pyStrip p.2) = true
    · have hl : lineIsComment p.2 = true := by
        simp [lineIsComment, lineIsBlank, hb, hc]
      rw [if_neg hb, if_pos hc, hl]
      simp
    · have hl : lineIsComment p.2 = false := by
        simp [lineIsComment, lineIsBlank, hb, hc]
      rw [if_neg hb, if_neg hc, hl, if_neg (by decide : ¬ (false = true))]
      split <;> simp

theorem commentStep_issues (strict : List Char) (st : CCState) (p : Nat × List Char) :
    ∀ i ∈ (commentStep strict st p).issues,
      i ∈ st.issues ∨ i.issue_type = ("missing_comments").data := by
  intro i hi
  unfold commentStep at hi
  by_cases hb : pyStrip p.2 = []
  · rw [if_pos hb] at hi
    exact Or.inl hi
  · rw [if_neg hb] at hi
    by_cases hc : isCommentStart (pyStrip p.2) = true
    · rw [if_pos hc] at hi
      exact Or.inl hi
    · rw [if_neg hc] at hi
      split at hi
      · simp only [List.mem_append, List.mem_singleton] at hi
        rcases hi with hi3 | hi3
        · exact Or.inl hi3
        · right
          rw [hi3]
      · exact Or.inl hi

theorem ccFold_code (strict : List Char) : ∀ (ps : List (Nat × List Char)) (st : CCState),
    (ps.foldl (commentStep strict) st).code
      = st.code + ps.countP (fun p => lineIsCode p.2) := by
  intro ps
  induction ps with
  | nil => intro st; simp
  | cons p ps ih =>
    intro st
    rw [List.foldl_cons, ih, commentStep_code, List.countP_cons]
    split <;> omega

theorem ccFold_comment (strict : List Char) : ∀ (ps : List (Nat × List Char)) (st : CCState),
    (ps.foldl (commentStep strict) st).comment
      = st.comment + ps.countP (fun p => lineIsComment p.2) := by
  intro ps
  induction ps with
  | nil => intro st; simp
  | cons p ps ih =>
    intro st
    rw [List.foldl_cons, ih, commentStep_comment, List.countP_cons]
    split <;> omega

theorem ccFold_issues (strict : List Char) : ∀ (ps : List (Nat × List Char)) (st : CCState),
    ∀ i ∈ (ps.foldl (commentStep strict) st).issues,
      i ∈ st.issues ∨ i.issue_type = ("missing_comments").data := by
  intro ps
  induction ps with
  | nil => intro st i hi; exact Or.inl hi
  | cons p ps ih =>
    intro st i hi
    rw [List.foldl_cons] at hi
    rcases ih (commentStep strict st p) i hi with h | h
    · exact commentStep_issues strict st p i h
    · exact Or.inr h

theorem countP_enumFrom {α : Type} (pr : α → Bool) :
    ∀ (l : List α) (n : Nat),
      (List.enumFrom n l).countP (fun q => pr q.2) = l.countP pr := by
  intro l
  induction l with
  | nil => intro n; rfl
  | cons a l ih =>
    intro n
    rw [List.enumFrom_cons, List.countP_cons, List.countP_cons, ih]

theorem countP_numbered (pr : List Char → Bool) (lines : List (List Char)) :
    ((lines.enum.map (fun q => (q.1 + 1, q.2))).countP (fun p => pr p.2))
      = lines.countP pr := by
  rw [List.countP_map]
  have h1 : ((fun p : Nat × List Char => pr p.2) ∘ (fun q : Nat × List Char => (q.1 + 1, q.2)))
      = fun q : Nat × List Char => pr q.2 := rfl
  rw [h1]
  exact countP_enumFrom pr lines 0

theorem issueWeight_nonneg (t : List Char) : 0 ≤ issueWeight t := by
  unfold issueWeight
  repeat' split
  all_goals norm_num

theorem scoreFold_le (l : List Issue) :
    ∀ a : Int, l.foldl (fun score i => score - issueWeight i.issue_type) a ≤ a := by
  induction l with
  | nil => intro a; simp
  | cons i l ih =>
    intro a
    rw [List.foldl_cons]
    have h1 := ih (a - issueWeight i.issue_type)
    have h2 := issueWeight_nonneg i.issue_type
    omega

/-! ## Claim theorems -/

/-- C1: for every list of accumulated findings and every total line count,
`_calculate_readability_score` returns an integer in the interval
`[0, 100]`. -/
theorem readability_score_bounds (issues : List Issue) (total_lines : Nat) :
    0 ≤ calculate_readability_score issues total_lines
    ∧ calculate_readability_score issues total_lines ≤ 100 := by
  unfold calculate_readability_score
  by_cases h : total_lines = 0
  · rw [if_pos h]
    exact ⟨le_refl 0, by norm_num⟩
  · rw [if_neg h]
    exact ⟨le_max_left 0 _, max_le (by norm_num) (scoreFold_le issues 100)⟩

/-- C2 counterexample: an analysed empty file produces zero findings, yet
`_calculate_readability_score` returns 0 for it, not 100 (analyze.py lines
427-428 return 0 whenever `total_lines == 0`). -/
theorem empty_file_zero_findings_score_zero :
    calculate_readability_score [] 0 = 0 ∧ calculate_readability_score [] 0 ≠ 100 := by
  decide

/-- C2 amended: every analysed file with at least one line that produces zero
findings receives a readability score of exactly 100; the empty file instead
scores 0. -/
theorem no_findings_scores_100 (total_lines : Nat) (h : 0 < total_lines) :
    calculate_readability_score [] total_lines = 100 := by
  unfold calculate_readability_score
  rw [if_neg (by omega)]
  rfl

/-- Witness for `no_findings_scores_100` at `total_lines = 1`. -/
theorem no_findings_scores_100_witness :
    calculate_readability_score [] 1 = 100 :=
  no_findings_scores_100 1 (by decide)

/-- The sample diff embedded in the `test` action of helpers.py
(lines 696-706). -/
def sampleDiff : List Char :=
  ("diff --git a/test.js b/test.js\nindex 123..456 789\n--- a/test.js\n+++ b/test.js\n@@ -1,3 +1,5 @@\n+// New comment\n if (condition) \x7b\n-  console.log(\x27old\x27);\n+  console.log(\x27new\x27);\n+  return true;\n \x7d").data

/-- C3: `analyze_diff` counts as additions exactly the lines beginning with
`+` but not `+++`, and as deletions exactly the lines beginning with `-` but
not `---`; on the sample diff of the test action it returns
`files = ["test.js"]`, `additions = 3`, `deletions = 1`. -/
theorem analyze_diff_counts (d : List Char) :
    (analyze_diff (some d)).additions = (splitNl d).countP isAdditionLine
    ∧ (analyze_diff (some d)).deletions = (splitNl d).countP isDeletionLine
    ∧ analyze_diff (some sampleDiff) = ⟨[("test.js").data], 3, 1, some 4⟩ := by
  refine ⟨?_, ?_, by decide⟩
  · by_cases hd : d = []
    · subst hd; rfl
    · rw [analyze_diff_some d hd]
  · by_cases hd : d = []
    · subst hd; rfl
    · rw [analyze_diff_some d hd]

/-- C4 counterexample: on empty and `None` input the dict returned by
`analyze_diff` (helpers.py line 126) has NO `total_changes` key at all, so the
total-changes value is not 0 — it is absent. -/
theorem analyze_diff_empty_no_total :
    (analyze_diff (some [])).total_changes ≠ some 0
    ∧ (analyze_diff none).total_changes ≠ some 0 := by
  decide

/-- C4 amended: `analyze_diff` on empty or `None` input returns an empty file
list, 0 additions and 0 deletions, but the result of this early return has no
total-changes entry (the sum of the two counts is nonetheless 0). -/
theorem analyze_diff_empty_result :
    analyze_diff none = ⟨[], 0, 0, none⟩
    ∧ analyze_diff (some []) = ⟨[], 0, 0, none⟩
    ∧ (analyze_diff none).additions + (analyze_diff none).deletions = 0 := by
  decide

/-- Modelled from the spec (claim C5): stripping only a LEADING `b/` prefix
from a path. -/
def stripLeadingB (s : List Char) : List Char :=
  if ("b/").data.isPrefixOf s then s.drop 2 else s

/-- C5 counterexample: on the header `diff --git a/lib/x b/lib/x`, whose
fourth whitespace-separated part is `b/lib/x`, `analyze_diff` appends `lix` —
Python `replace('b/', '')` removes EVERY occurrence of `b/`, not only the
leading prefix, so the appended path is not `lib/x`. -/
theorem analyze_diff_path_cex :
    (pyWords (("diff --git a/lib/x b/lib/x").data)).getD 3 [] = ("b/lib/x").data
    ∧ (analyze_diff (some (("diff --git a/lib/x b/lib/x").data))).files = [("lix").data]
    ∧ (analyze_diff (some (("diff --git a/lib/x b/lib/x").data))).files
        ≠ [stripLeadingB (("b/lib/x").data)] := by
  decide

/-- C5 amended: the file list of `analyze_diff` consists of, for each
`diff --git` header line with at least four whitespace-separated parts, the
fourth part with EVERY occurrence of the substring `b/` removed (not only a
leading prefix). -/
theorem analyze_diff_files_paths (d : List Char) :
    (analyze_diff (some d)).files = extractFiles (splitNl d) := by
  by_cases hd : d = []
  · subst hd; rfl
  · rw [analyze_diff_some d hd]

/-- C6: a porcelain status code is assigned to at most one category, by the
first matching rule in the fixed order M (either position), leading A,
D (either position), then `??`; `M  foo.py` is modified only and `?? bar.py`
is untracked only. -/
theorem get_status_classification :
    (∀ x y : Char,
      ((statusCat x y = some FileCat.modified) ↔ (x = 'M' ∨ y = 'M'))
      ∧ ((statusCat x y = some FileCat.added) ↔ (¬ (x = 'M' ∨ y = 'M') ∧ x = 'A'))
      ∧ ((statusCat x y = some FileCat.deleted)
          ↔ (¬ (x = 'M' ∨ y = 'M') ∧ ¬ x = 'A' ∧ (x = 'D' ∨ y = 'D')))
      ∧ ((statusCat x y = some FileCat.untracked)
          ↔ (¬ (x = 'M' ∨ y = 'M') ∧ ¬ x = 'A' ∧ ¬ (x = 'D' ∨ y = 'D')
              ∧ x = '?' ∧ y = '?')))
    ∧ get_status (("M  foo.py").data) = some ⟨[("foo.py").data], [], [], []⟩
    ∧ get_status (("?? bar.py").data) = some ⟨[], [], [], [("bar.py").data]⟩ := by
  refine ⟨?_, by decide, by decide⟩
  intro x y
  unfold statusCat
  refine ⟨?_, ?_, ?_, ?_⟩ <;> split_ifs <;> simp_all

/-- C7: a commit whose subject line is exactly `wip` yields exactly one
`vague_message` finding — the pattern loop appends one issue and breaks, no
matter how many patterns match. -/
theorem wip_single_vague_issue (hash : List Char) (files_changed : Nat) :
    (commitIssues hash (("wip").data) files_changed).countP
      (fun i => i.issue_type = ("vague_message").data) = 1 := by
  unfold commitIssues
  have h1 : vagueLoop vaguePatterns hash (pyLower (("wip").data))
      = [⟨hash, ("vague_message").data⟩] := rfl
  rw [h1]
  by_cases h2 : 20 < files_changed
  · rw [if_pos h2]
    rfl
  · rw [if_neg h2]
    rfl

theorem insufficientOf_ccResult (st : CCState)
    (hiss : ∀ i ∈ st.issues, i.issue_type = ("missing_comments").data) :
    insufficientOf (ccResult st)
      = if 0 < st.code ∧ (st.comment : ℚ) / (st.code : ℚ) < 1/5 then
          [⟨0, ("insufficient_comments").data, some ((st.comment : ℚ) / (st.code : ℚ))⟩]
        else [] := by
  unfold ccResult insufficientOf
  rw [List.filter_append]
  have h1 : st.issues.filter
      (fun i => decide (i.issue_type = ("insufficient_comments").data)) = [] := by
    rw [List.filter_eq_nil_iff]
    intro i hi
    rw [hiss i hi]
    decide
  rw [h1, List.nil_append]
  split
  · rfl
  · rfl

/-- C8: whenever the counted code lines are positive, the comment scan emits
exactly one `insufficient_comments` finding — at line 0 and carrying the
computed ratio — precisely when comment-lines / code-lines is below 0.2, and
none when the ratio is at least 0.2. -/
theorem comment_ratio_finding (strict : List Char) (lines : List (List Char))
    (h : 0 < codeLineCount lines) :
    (commentRatio lines < 1/5 →
      insufficientOf (check_comments strict lines)
        = [⟨0, ("insufficient_comments").data, some (commentRatio lines)⟩])
    ∧ (1/5 ≤ commentRatio lines →
      insufficientOf (check_comments strict lines) = []) := by
  unfold check_comments
  have hcode : ((lines.enum.map (fun q => (q.1 + 1, q.2))).foldl (commentStep strict)
      ⟨0, 0, 0, []⟩).code = codeLineCount lines := by
    rw [ccFold_code]
    simpa [codeLineCount] using countP_numbered lineIsCode lines
  have hcom : ((lines.enum.map (fun q => (q.1 + 1, q.2))).foldl (commentStep strict)
      ⟨0, 0, 0, []⟩).comment = commentLineCount lines := by
    rw [ccFold_comment]
    simpa [commentLineCount] using countP_numbered lineIsComment lines
  have hiss : ∀ i ∈ ((lines.enum.map (fun q => (q.1 + 1, q.2))).foldl (commentStep strict)
      ⟨0, 0, 0, []⟩).issues, i.issue_type = ("missing_comments").data := by
    intro i hi
    rcases ccFold_issues strict _ _ i hi with h0 | h0
    · simp at h0
    · exact h0
  rw [insufficientOf_ccResult _ hiss, hcode, hcom]
  constructor
  · intro hlt
    rw [if_pos ⟨h, hlt⟩]
    rfl
  · intro hge
    rw [if_neg (fun hc => absurd hc.2 (not_lt.mpr hge))]

/-- Witness for `comment_ratio_finding` on the single code line `x = 1`
(one code line, no comment lines, ratio 0). -/
theorem comment_ratio_finding_witness :
    insufficientOf (check_comments (("standard").data) [("x = 1").data])
      = [⟨0, ("insufficient_comments").data,
          some (commentRatio [("x = 1").data])⟩] :=
  (comment_ratio_finding (("standard").data) [("x = 1").data] (by decide)).1 (by
    have h0 : commentLineCount [("x = 1").data] = 0 := by decide
    have h1 : codeLineCount [("x = 1").data] = 1 := by decide
    unfold commentRatio
    rw [h0, h1]
    norm_num)

theorem filter_all_self {α : Type} (p : α → Bool) (l : List α) :
    (l.filter p).all p = true := by
  rw [List.all_eq_true]
  intro a ha
  exact (List.mem_filter.mp ha).2

theorem branchTypeOf_mem (n : List Char) :
    branchTypeOf n ∈ [("feature").data, ("fix").data, ("refactor").data,
      ("test").data, ("docs").data] := by
  unfold branchTypeOf
  split_ifs <;> simp

theorem branchNamePattern_of (p : List Char)
    (hp : p ∈ [("feature").data, ("fix").data, ("refactor").data,
      ("test").data, ("docs").data])
    (s : List Char) (hs : s.all isSlugChar = true) :
    branchNamePattern (p ++ ('/' : Char) :: s) = true := by
  unfold branchNamePattern
  rw [List.any_eq_true]
  refine ⟨p, hp, ?_⟩
  rw [Bool.and_eq_true]
  constructor
  · exact List.isPrefixOf_iff_prefix.mpr ⟨s, by simp⟩
  · have hd : (p ++ ('/' : Char) :: s).drop (p.length + 1) = s := by
      rw [show p ++ ('/' : Char) :: s = (p ++ [('/' : Char)]) ++ s by simp,
        show p.length + 1 = (p ++ [('/' : Char)]).length by simp]
      exact List.drop_left _ _
    rw [hd, hs]

/-- C9: `suggest_branch_name` on the empty context returns the fixed
usage-hint string, which does not match the `prefix/slug` pattern, while
every name produced for a nonempty context does match it. -/
theorem suggest_branch_empty_usage :
    suggest_branch_name [] = usageHint
    ∧ branchNamePattern usageHint = false
    ∧ ∀ ctx : List Char, ¬ ctx = [] →
        branchNamePattern (suggest_branch_name ctx) = true := by
  refine ⟨rfl, by decide, ?_⟩
  intro ctx hctx
  unfold suggest_branch_name
  rw [if_neg hctx]
  exact branchNamePattern_of _ (branchTypeOf_mem _) _ (filter_all_self _ _)

/-- Witness for `suggest_branch_empty_usage` at the context `fix bug`. -/
theorem suggest_branch_empty_usage_witness :
    branchNamePattern (suggest_branch_name (("fix bug").data)) = true :=
  suggest_branch_empty_usage.2.2 (("fix bug").data) (by decide)

/-- C10: a nonempty context whose whitespace-separated tokens are all
stop words or of length at most 2 yields a branch name that is the detected
prefix followed by `/` and an empty slug. -/
theorem stopword_context_empty_slug (ctx : List Char) (hne : ¬ ctx = [])
    (htok : ∀ t ∈ pyWords ctx, t ∈ removeWords ∨ t.length ≤ 2) :
    suggest_branch_name ctx = branchTypeOf (pyStrip (pyLower ctx)) ++ [('/' : Char)] := by
  unfold suggest_branch_name
  rw [if_neg hne]
  have hwords : pyWords (pyStrip (pyLower ctx)) = (pyWords ctx).map pyLower := by
    rw [words_strip, words_lower]
  have hlow : ∀ w ∈ removeWords, pyLower w = w := by decide
  have hfil : (pyWords (pyStrip (pyLower ctx))).filter
      (fun w => !(decide (w ∈ removeWords)) && decide (2 < w.length)) = [] := by
    rw [hwords, List.filter_eq_nil_iff]
    intro w hw
    rcases List.mem_map.mp hw with ⟨t, ht, rfl⟩
    rcases htok t ht with hmem | hlen
    · rw [hlow t hmem]
      simp [hmem]
    · have hlen2 : (pyLower t).length ≤ 2 := by
        unfold pyLower
        rw [List.length_map]
        exact hlen
      simp
      intro _
      omega
  rw [hfil]
  rfl

/-- Witness for `stopword_context_empty_slug` at the context `add the fix`,
which yields `fix/`. -/
theorem stopword_context_empty_slug_witness :
    suggest_branch_name (("add the fix").data) = ("fix/").data := by
  have h := stopword_context_empty_slug (("add the fix").data) (by decide) (by decide)
  rw [h]
  decide
